import Mathlib

/-!
# ImDL: notification queue, process runner and download supervisor

A shallow embedding of `include/widgets.h`, `include/log.h` and `src/main.cpp`.

* `float` values are kept abstract: every definition is written over a carrier `F`
  with the operations of `FloatOps F`.  The arithmetic of the code is the instance
  `FloatOps F32`, IEEE binary32 with every operation rounded to nearest, ties to even.
  The instance `FloatOps ℚ` is the exact-arithmetic reading, used where a statement
  is about exact arithmetic.
* `std::string` is `String`; a `char` is a `Char`.
* The operating system, the HTTP client and the ImGui frame state are inputs.
-/

namespace ImDL

/-! ## widgets.h -/

/-- The enum `ImGui::ToastLevel`. -/
inductive ToastLevel where
  | Debug
  | Info
  | Warning
  | Error
  deriving DecidableEq, Repr

/-- The operations on `float` that the toast code uses. -/
class FloatOps (F : Type) where
  /-- A floating literal such as `0.75f`. -/
  lit : ℚ → F
  /-- The sum `a + b`. -/
  add : F → F → F
  /-- The difference `a - b`. -/
  sub : F → F → F
  /-- The product `a * b`. -/
  mul : F → F → F
  /-- The call `std::max(a, b)`. -/
  max : F → F → F
  /-- The comparison `a > b`. -/
  gt : F → F → Bool
  /-- The comparison `a <= b`. -/
  le : F → F → Bool

/-- Exact rational arithmetic as an instance of the `float` operations. -/
instance instFloatOpsRat : FloatOps ℚ where
  lit q := q
  add a b := a + b
  sub a b := a - b
  mul a b := a * b
  max a b := if a < b then b else a
  gt a b := decide (b < a)
  le a b := decide (a ≤ b)

/-- Rounding of a rational to the nearest integer, ties to the even one. -/
def rne (x : ℚ) : ℤ :=
  if x - ⌊x⌋ < 1 / 2 then ⌊x⌋
  else if 1 / 2 < x - ⌊x⌋ then ⌊x⌋ + 1
  else if ⌊x⌋ % 2 = 0 then ⌊x⌋ else ⌊x⌋ + 1

/-- The exponent of the binade of a rational in binary32: the floor of the binary logarithm
of its magnitude, and `-126` in the subnormal range. -/
def expo (q : ℚ) : ℤ := max (Int.log 2 |q|) (-126)

/-- The spacing of binary32 values in the binade of `q`: 24 significant bits. -/
def ulp (q : ℚ) : ℚ := (2 : ℚ) ^ (expo q - 23)

/-- The multiple of `ulp q` nearest to `q`, ties to the even multiple. -/
def roundQ (q : ℚ) : ℚ := (rne (q / ulp q) : ℚ) * ulp q

/-- A value of the type `float` (IEEE binary32): a NaN, an infinity, or a finite number.  The
two zeros are one value; no operation of the toast code tells them apart. -/
inductive F32 where
  | nan
  | ninf
  | pinf
  | fin (q : ℚ)
  deriving DecidableEq

/-- Rounding of an exact result to binary32: to nearest, ties to even, with overflow to an
infinity from `2^128` on. -/
def round32 (q : ℚ) : F32 :=
  if (2 : ℚ) ^ 128 ≤ roundQ q then F32.pinf
  else if roundQ q ≤ -(2 : ℚ) ^ 128 then F32.ninf
  else F32.fin (roundQ q)

/-- The negation `-a`. -/
def F32.neg : F32 → F32
  | .nan => .nan
  | .ninf => .pinf
  | .pinf => .ninf
  | .fin a => .fin (-a)

/-- The sum `a + b` in binary32. -/
def F32.add : F32 → F32 → F32
  | .fin a, .fin b => round32 (a + b)
  | .fin _, .pinf => .pinf
  | .fin _, .ninf => .ninf
  | .pinf, .fin _ => .pinf
  | .pinf, .pinf => .pinf
  | .pinf, .ninf => .nan
  | .ninf, .fin _ => .ninf
  | .ninf, .ninf => .ninf
  | .ninf, .pinf => .nan
  | .nan, _ => .nan
  | _, .nan => .nan

/-- The difference `a - b` in binary32, which is `a + (-b)`. -/
def F32.sub (a b : F32) : F32 := F32.add a (F32.neg b)

/-- The product of an infinity of sign `neg` with a finite number. -/
def F32.mulInf (neg : Bool) (a : ℚ) : F32 :=
  if a = 0 then .nan
  else if (decide (0 < a)) = neg then .ninf else .pinf

/-- The product `a * b` in binary32. -/
def F32.mul : F32 → F32 → F32
  | .fin a, .fin b => round32 (a * b)
  | .fin a, .pinf => F32.mulInf false a
  | .fin a, .ninf => F32.mulInf true a
  | .pinf, .fin b => F32.mulInf false b
  | .ninf, .fin b => F32.mulInf true b
  | .pinf, .pinf => .pinf
  | .pinf, .ninf => .ninf
  | .ninf, .pinf => .ninf
  | .ninf, .ninf => .pinf
  | .nan, _ => .nan
  | _, .nan => .nan

/-- The comparison `a < b` in binary32: false as soon as one side is a NaN. -/
def F32.lt : F32 → F32 → Bool
  | .fin a, .fin b => decide (a < b)
  | .fin _, .pinf => true
  | .fin _, .ninf => false
  | .pinf, .fin _ => false
  | .pinf, .pinf => false
  | .pinf, .ninf => false
  | .ninf, .fin _ => true
  | .ninf, .pinf => true
  | .ninf, .ninf => false
  | .nan, _ => false
  | _, .nan => false

/-- The comparison `a <= b` in binary32: false as soon as one side is a NaN. -/
def F32.le : F32 → F32 → Bool
  | .fin a, .fin b => decide (a ≤ b)
  | .fin _, .pinf => true
  | .fin _, .ninf => false
  | .pinf, .fin _ => false
  | .pinf, .pinf => true
  | .pinf, .ninf => false
  | .ninf, .fin _ => true
  | .ninf, .pinf => true
  | .ninf, .ninf => true
  | .nan, _ => false
  | _, .nan => false

/-- The arithmetic of the code: binary32, a literal being the binary32 value nearest to its
decimal, and `std::max(a, b)` being `(a < b) ? b : a`. -/
instance instFloatOpsF32 : FloatOps F32 where
  lit q := round32 q
  add a b := F32.add a b
  sub a b := F32.sub a b
  mul a b := F32.mul a b
  max a b := if F32.lt a b then b else a
  gt a b := F32.lt b a
  le a b := F32.le a b

/-- The class `ToastSystem::Toast`. -/
structure Toast (F : Type) where
  message : String
  level : ToastLevel
  alpha : F
  fadeSpeed : F
  displayTime : F
  startTime : F
  isFading : Bool
  isVisible : Bool

/-- The function `ToastSystem::Show`: append a toast and initialise its fields;
`now` is the value of `(float)ImGui::GetTime()`. -/
def Show {F : Type} [FloatOps F] (message : String) (level : ToastLevel) (now : F)
    (toastQueue : List (Toast F)) : List (Toast F) :=
  toastQueue ++
    [{ message := message, level := level,
       startTime := now, isFading := false, isVisible := true,
       alpha := FloatOps.lit 1, fadeSpeed := FloatOps.lit (3 / 4),
       displayTime := FloatOps.lit 3 }]

/-- What one call of `RenderAll` reads from ImGui: the time, the delta time, the display
size and the text measurement `CalculateTextHeight`. -/
structure Frame (F : Type) where
  time : F
  deltaTime : F
  displayW : F
  displayH : F
  textHeight : String → F → F

/-- One toast drawn on the foreground draw list: the rectangle and the alpha that
multiplies every colour.  The colours and the icon, which depend on the level only, are
left out. -/
structure DrawCmd (F : Type) where
  message : String
  level : ToastLevel
  alpha : F
  rectMinX : F
  rectMinY : F
  rectMaxX : F
  rectMaxY : F

/-- The variables the loop of `RenderAll` carries from one iteration to the next. -/
structure LoopState (F : Type) where
  updatedToasts : List (Toast F)
  drawList : List (DrawCmd F)
  yOffset : F

/-- The part of the loop body after the fading test: keep the toast, compute its footprint,
draw it and move `yOffset` up. -/
def drawToast {F : Type} [FloatOps F] (fr : Frame F) (st : LoopState F) (toast : Toast F) :
    LoopState F :=
  let padding : F := FloatOps.lit 10
  let margin : F := FloatOps.lit 10
  let toastWidth : F := FloatOps.lit 300
  let iconWidth : F := FloatOps.lit 20
  let textAreaWidth := FloatOps.sub (FloatOps.sub toastWidth (FloatOps.mul padding (FloatOps.lit 2)))
    iconWidth
  let textHeight := fr.textHeight toast.message textAreaWidth
  let toastHeight := FloatOps.add (FloatOps.max textHeight (FloatOps.lit 24))
    (FloatOps.mul padding (FloatOps.lit 2))
  let posX := FloatOps.sub (FloatOps.sub fr.displayW toastWidth) margin
  let posY := FloatOps.sub st.yOffset toastHeight
  { updatedToasts := st.updatedToasts ++ [toast],
    drawList := st.drawList ++
      [{ message := toast.message, level := toast.level, alpha := toast.alpha,
         rectMinX := posX, rectMinY := posY,
         rectMaxX := FloatOps.add posX toastWidth, rectMaxY := FloatOps.add posY toastHeight }],
    yOffset := FloatOps.sub st.yOffset (FloatOps.add toastHeight margin) }

/-- The body of the loop of `RenderAll` for one element `*it`.  On `continue` the copy, whose
`isVisible` was just cleared, is dropped and the loop variables are unchanged. -/
def renderToast {F : Type} [FloatOps F] (fr : Frame F) (st : LoopState F) (it : Toast F) :
    LoopState F :=
  let toast := it
  let currentTime := fr.time
  let elapsedTime := FloatOps.sub currentTime toast.startTime
  let toast : Toast F :=
    if FloatOps.gt elapsedTime toast.displayTime && !toast.isFading then
      { toast with isFading := true }
    else toast
  if toast.isFading then
    let toast : Toast F :=
      { toast with alpha := FloatOps.sub toast.alpha (FloatOps.mul toast.fadeSpeed fr.deltaTime) }
    if FloatOps.le toast.alpha (FloatOps.lit 0) then
      st
    else drawToast fr st toast
  else drawToast fr st toast

/-- The loop of `RenderAll` over `localToastQueue`, from `rbegin()` to `rend()`. -/
def renderLoop {F : Type} [FloatOps F] (fr : Frame F) (localToastQueue : List (Toast F)) :
    LoopState F :=
  localToastQueue.reverse.foldl (renderToast fr)
    { updatedToasts := [], drawList := [],
      yOffset := FloatOps.sub fr.displayH (FloatOps.lit 20) }

/-- The last block of `RenderAll`: clear the queue and push `updatedToasts` back from
`rbegin()` to `rend()`. -/
def copyBack {F : Type} (updatedToasts : List (Toast F)) : List (Toast F) :=
  updatedToasts.reverse.foldl (fun toastQueue t => toastQueue ++ [t]) []

/-- The function `ToastSystem::RenderAll` with no other thread running: the queue it stores
and what it draws. -/
def RenderAll {F : Type} [FloatOps F] (fr : Frame F) (toastQueue : List (Toast F)) :
    List (Toast F) × List (DrawCmd F) :=
  let localToastQueue := toastQueue
  let st := renderLoop fr localToastQueue
  (copyBack st.updatedToasts, st.drawList)

/-- Ageing of one notice, in the words of the specification: fading is set when
`now - createdAt > displayDuration` and the notice is not fading; a fading notice loses
`fadeRate * deltaTime` of opacity. -/
def ageNotice {F : Type} [FloatOps F] (fr : Frame F) (t : Toast F) : Toast F :=
  let fading := t.isFading || FloatOps.gt (FloatOps.sub fr.time t.startTime) t.displayTime
  { t with
    isFading := fading,
    alpha := if fading then FloatOps.sub t.alpha (FloatOps.mul t.fadeSpeed fr.deltaTime)
             else t.alpha }

/-- The test that drops a notice: it is fading and its opacity is `<= 0`. -/
def agedOut {F : Type} [FloatOps F] (t : Toast F) : Bool :=
  t.isFading && FloatOps.le t.alpha (FloatOps.lit 0)

/-- The queue after a pass, in the words of the specification: age every notice, then drop
the aged-out ones. -/
def agedQueue {F : Type} [FloatOps F] (fr : Frame F) (q : List (Toast F)) : List (Toast F) :=
  (q.map (ageNotice fr)).filter (fun t => !agedOut t)

/-- The result of the loop body on one toast: `none` when the body reaches `continue`. -/
def keepToast {F : Type} [FloatOps F] (fr : Frame F) (t : Toast F) : Option (Toast F) :=
  if agedOut (ageNotice fr t) then none else some (ageNotice fr t)

/-! ## The queue with a producer between the two locked blocks of `RenderAll` -/

/-- The shared queue and the render thread's local copy of it. -/
structure QueueState (F : Type) where
  toastQueue : List (Toast F)
  localToastQueue : List (Toast F)

/-- The first locked block of `RenderAll`: `localToastQueue = toastQueue`. -/
def snapshotStep {F : Type} (s : QueueState F) : QueueState F :=
  { s with localToastQueue := s.toastQueue }

/-- A call of `Show` by any thread, under the lock. -/
def showStep {F : Type} [FloatOps F] (message : String) (level : ToastLevel) (now : F)
    (s : QueueState F) : QueueState F :=
  { s with toastQueue := Show message level now s.toastQueue }

/-- The loop of `RenderAll` on the local copy followed by the second locked block, which
clears `toastQueue` and refills it from `updatedToasts`. -/
def replaceStep {F : Type} [FloatOps F] (fr : Frame F) (s : QueueState F) : QueueState F :=
  { s with toastQueue := copyBack (renderLoop fr s.localToastQueue).updatedToasts }

/-- A frame of the exact-arithmetic model with a given time and delta time. -/
def frameAt (time deltaTime : ℚ) : Frame ℚ :=
  { time := time, deltaTime := deltaTime, displayW := 600, displayH := 150,
    textHeight := fun _ _ => 13 }

/-! ## log.h -/

/-- The enum `spdlog::level::level_enum`. -/
inductive LogLevel where
  | trace
  | debug
  | info
  | warn
  | err
  | critical
  deriving DecidableEq, Repr

/-- The numeric value of a log level. -/
def LogLevel.toNat : LogLevel → Nat
  | .trace => 0
  | .debug => 1
  | .info => 2
  | .warn => 3
  | .err => 4
  | .critical => 5

/-- The state the code of `main.cpp` and `log.h` reads and writes. -/
structure World (F : Type) where
  /-- Whether `_DEBUG` is defined. -/
  debugBuild : Bool
  /-- Whether `ImGui::GetCurrentContext()` is not null. -/
  hasContext : Bool
  /-- The value of `(float)ImGui::GetTime()`. -/
  time : F
  toastQueue : List (Toast F)
  /-- What the console sink received. -/
  console : List (LogLevel × String)
  downloadComplete : Bool
  /-- Whether the file `yt-dlp.exe` exists. -/
  ytDlpExists : Bool
  /-- The command of every call of `RunCommandAndCaptureOutput`, oldest first. -/
  commands : List String

/-- The method `ToastSink::log`; `payload` is the formatted message. -/
def ToastSink_log {F : Type} [FloatOps F] (msgLevel : LogLevel) (payload : String)
    (w : World F) : World F :=
  if !w.hasContext then w
  else
    let message := payload
    let level :=
      if msgLevel = .err then ToastLevel.Error
      else if msgLevel = .warn then ToastLevel.Warning
      else if msgLevel = .info then ToastLevel.Info
      else if msgLevel = .debug then ToastLevel.Debug
      else ToastLevel.Info
    { w with toastQueue := Show message level w.time w.toastQueue }

/-- The level `SetupLogger` gives the default logger. -/
def loggerLevel (debugBuild : Bool) : LogLevel :=
  if debugBuild then .debug else .info

/-- A log call on the default logger of `SetupLogger`: a message below the logger's level is
dropped, any other goes to the console sink and to the toast sink. -/
def spdlog_log {F : Type} [FloatOps F] (msgLevel : LogLevel) (payload : String)
    (w : World F) : World F :=
  if msgLevel.toNat < (loggerLevel w.debugBuild).toNat then w
  else ToastSink_log msgLevel payload { w with console := w.console ++ [(msgLevel, payload)] }

/-! ## main.cpp -/

/-- The enum `Format`. -/
inductive Format where
  | MP3
  | MP4
  deriving DecidableEq, Repr

/-- One call of `ReadFile` on the read end of the pipe: its return value and the bytes it
stored in the buffer. -/
structure ReadResult where
  ok : Bool
  bytes : List Char

/-- What the operating system does during one call of `RunCommandAndCaptureOutput`. -/
structure ProcEnv where
  createPipeOk : Bool
  createProcessOk : Bool
  /-- The value of `GetLastError()` after a failure. -/
  lastError : Nat
  /-- The results of the successive `ReadFile` calls; after the last one the pipe is
  broken and `ReadFile` fails. -/
  reads : List ReadResult

/-- The read loop `while (ReadFile(...) && bytesRead > 0) output.append(buffer, bytesRead)`. -/
def readPipe : List ReadResult → List Char → List Char
  | [], output => output
  | r :: rest, output =>
    if r.ok && decide (r.bytes.length > 0) then readPipe rest (output ++ r.bytes) else output

/-- The idiom `output.erase(std::remove(output.begin(), output.end(), c), output.end())`. -/
def eraseRemove (c : Char) (output : List Char) : List Char :=
  output.filter (fun x => x != c)

/-- The function `RunCommandAndCaptureOutput`; the command is recorded in `commands` on
entry. -/
def RunCommandAndCaptureOutput {F : Type} [FloatOps F] (env : ProcEnv) (command : String)
    (w : World F) : String × World F :=
  let w := { w with commands := w.commands ++ [command] }
  if !env.createPipeOk then
    ("", spdlog_log .err ("CreatePipe failed, err=" ++ toString env.lastError) w)
  else if !env.createProcessOk then
    ("", spdlog_log .err ("CreateProcess failed, err=" ++ toString env.lastError) w)
  else
    let output := readPipe env.reads []
    let output := eraseRemove '\n' output
    let output := eraseRemove '\r' output
    (String.mk output, w)

/-- The reply of `cpr::Get`. -/
structure HttpResponse where
  status_code : Int
  text : String

/-- The collaborators of the worker: the operating system's behaviour for the n-th process
run with a given command, and the reply of the HTTP client. -/
structure Env where
  os : Nat → String → ProcEnv
  http : HttpResponse

/-- The function `EnsureYtDlp`. -/
def EnsureYtDlp {F : Type} [FloatOps F] (env : Env) (w : World F) : World F :=
  if !w.ytDlpExists then
    let w := spdlog_log .info "yt-dlp.exe not found, downloading..." w
    let r := env.http
    if r.status_code = 200 then
      { w with ytDlpExists := true }
    else
      spdlog_log .err ("Download failed: " ++ toString r.status_code) w
  else
    spdlog_log .debug "yt-dlp.exe already exists, skipping download." w

/-- The directory separators of a path. -/
def isSeparator (c : Char) : Bool := c == '/' || c == '\\'

/-- The characters of `path::filename()`: what follows the last separator. -/
def pathFilename (p : List Char) : List Char :=
  (p.reverse.takeWhile (fun c => !isSeparator c)).reverse

/-- The characters of `path::extension()`, for a path without a root name: from the last
period of the file name to the end, and nothing when the file name is `.` or `..`, has no
period, or has its only period in front. -/
def pathExtension (p : List Char) : List Char :=
  let f := pathFilename p
  let afterDot := f.reverse.takeWhile (fun c => c != '.')
  if f = ['.'] ∨ f = ['.', '.'] then []
  else if afterDot.length = f.length then []
  else if afterDot.length + 1 = f.length then []
  else '.' :: afterDot.reverse

/-- The method `std::filesystem::path::replace_extension`: remove the extension, then append
the replacement, with a period in front when it has none. -/
def replace_extension (p : String) (replacement : String) : String :=
  let stem := p.data.take (p.data.length - (pathExtension p.data).length)
  let r := replacement.data
  let r := if r ≠ [] ∧ r.head? ≠ some '.' then '.' :: r else r
  String.mk (stem ++ r)

/-- The constant `outputTemplate`. -/
def outputTemplate : String := "%(title)s.%(ext)s"

/-- The string built in `getNameCmd`. -/
def getNameCmd (url : String) : String :=
  "yt-dlp.exe --print filename " ++ "--output \"" ++ outputTemplate ++ "\" " ++
    "\"" ++ url ++ "\""

/-- The string built in `downloadCmd`. -/
def downloadCmd (audioOnly : Bool) (url : String) : String :=
  "yt-dlp.exe " ++
    (if audioOnly then "--extract-audio --audio-format mp3 "
     else "--format bestvideo+bestaudio/best ") ++
    "--merge-output-format mp4 " ++ "--output \"" ++ outputTemplate ++ "\" " ++
    "\"" ++ url ++ "\""

/-- The function `DownloadThread` after its first statement, from `EnsureYtDlp()` on. -/
def DownloadThreadBody {F : Type} [FloatOps F] (env : Env) (audioOnly : Bool) (url : String)
    (w : World F) : World F :=
  let w := EnsureYtDlp env w
  let (resultFilename, w) :=
    RunCommandAndCaptureOutput (env.os w.commands.length (getNameCmd url)) (getNameCmd url) w
  if resultFilename.isEmpty then
    let w := spdlog_log .err "Could not determine output filename." w
    { w with downloadComplete := true }
  else
    let w := spdlog_log .debug ("Running command: " ++ downloadCmd audioOnly url) w
    let (_, w) :=
      RunCommandAndCaptureOutput (env.os w.commands.length (downloadCmd audioOnly url))
        (downloadCmd audioOnly url) w
    let filePath :=
      if audioOnly then replace_extension resultFilename ".mp3"
      else replace_extension resultFilename ".mp4"
    let w := spdlog_log .info ("Download complete: " ++ filePath) w
    { w with downloadComplete := true }

/-- The function `DownloadThread`. -/
def DownloadThread {F : Type} [FloatOps F] (env : Env) (audioOnly : Bool) (url : String)
    (w : World F) : World F :=
  DownloadThreadBody env audioOnly url { w with downloadComplete := false }

/-- Where a worker thread stands: not yet at its first statement, past
`downloadComplete = false`, or returned. -/
inductive WorkerPc where
  | entry
  | running
  | returned
  deriving DecidableEq, Repr

/-- The object `std::jthread` held in `downloadThread`, with the arguments it was given. -/
structure JThread where
  audioOnly : Bool
  url : String
  pc : WorkerPc
  joined : Bool

/-- The statics of `main.cpp` and of `Render`, and the number of workers spawned so far. -/
structure App (F : Type) where
  world : World F
  urlValid : Bool
  buffer : String
  format : Format
  downloadThread : Option JThread
  spawned : Nat

/-- One step of the worker thread: the first statement, then the rest of the body. -/
def workerStep {F : Type} [FloatOps F] (env : Env) (a : App F) : App F :=
  match a.downloadThread with
  | none => a
  | some t =>
    match t.pc with
    | .entry =>
      { a with world := { a.world with downloadComplete := false },
               downloadThread := some { t with pc := .running } }
    | .running =>
      { a with world := DownloadThreadBody env t.audioOnly t.url a.world,
               downloadThread := some { t with pc := .returned } }
    | .returned => a

/-- The call `downloadThread->join()`: the caller waits while the worker runs to its end. -/
def joinThread {F : Type} [FloatOps F] (env : Env) (a : App F) : App F :=
  let a := workerStep env (workerStep env a)
  { a with downloadThread := a.downloadThread.map (fun t => { t with joined := true }) }

/-- The expression `!downloadComplete` read by the render thread. -/
def isBusy {F : Type} (a : App F) : Bool := !a.world.downloadComplete

/-- A frame of `Render` in which the user presses the download button: inside
`BeginDisabled(!urlValid || !downloadComplete)` the button does nothing; otherwise the
handler logs, joins a joinable previous thread and starts a new one. -/
def startAction {F : Type} [FloatOps F] (env : Env) (a : App F) : App F :=
  if !a.urlValid || !a.world.downloadComplete then a
  else
    let a := { a with world := spdlog_log .info "Starting download.." a.world }
    let a :=
      match a.downloadThread with
      | some t => if !t.joined then joinThread env a else a
      | none => a
    { a with
      downloadThread :=
        some { audioOnly := decide (a.format = Format.MP3), url := a.buffer,
               pc := .entry, joined := false },
      spawned := a.spawned + 1 }

/-- The number of toasts of a given level in a queue. -/
def countLevel {F : Type} (level : ToastLevel) (q : List (Toast F)) : Nat :=
  (q.filter (fun t => decide (t.level = level))).length

/-- A successful run of the process whose normalised output is `s`. -/
def StubReturns (pe : ProcEnv) (s : String) : Prop :=
  pe.createPipeOk = true ∧ pe.createProcessOk = true ∧
    String.mk (eraseRemove '\r' (eraseRemove '\n' (readPipe pe.reads []))) = s

/-- The mapping from log levels to toast levels computed by the chain of tests in
`ToastSink::log`. -/
def sinkLevel : LogLevel → ToastLevel
  | .err => .Error
  | .warn => .Warning
  | .debug => .Debug
  | _ => .Info

/-- A world of the exact-arithmetic model: release build, ImGui context present, empty queue,
no task running, tool binary present or not. -/
def idleWorld (ytDlpExists : Bool) : World ℚ :=
  { debugBuild := false, hasContext := true, time := 0, toastQueue := [], console := [],
    downloadComplete := true, ytDlpExists := ytDlpExists, commands := [] }

/-- An environment in which every process runs and prints `output`, and the HTTP fetch
replies with `status`. -/
def stubEnv (output : String) (status : Int) : Env :=
  { os := fun _ _ =>
      { createPipeOk := true, createProcessOk := true, lastError := 0,
        reads := [{ ok := true, bytes := output.data }] },
    http := { status_code := status, text := "" } }

/-- An environment in which no process can be spawned and the HTTP fetch replies with
`status`. -/
def failingEnv (status : Int) : Env :=
  { os := fun _ _ =>
      { createPipeOk := true, createProcessOk := false, lastError := 2, reads := [] },
    http := { status_code := status, text := "" } }

/-- The application before the first click: valid link typed in, given format, no thread. -/
def idleApp (format : Format) : App ℚ :=
  { world := idleWorld true, urlValid := true, buffer := "https://youtu.be/AAAAAAAAAAA",
    format := format, downloadThread := none, spawned := 0 }

/-- A run of successive frames of `RenderAll` with no `Show` in between. -/
def runFrames {F : Type} [FloatOps F] : List (Frame F) → List (Toast F) → List (Toast F)
  | [], q => q
  | fr :: rest, q => runFrames rest (RenderAll fr q).1

/-- An operation on the queue: a call of `Show` or a call of `RenderAll`. -/
inductive QueueOp (F : Type) where
  | showOp (message : String) (level : ToastLevel) (now : F)
  | renderOp (fr : Frame F)

/-- The queue after one operation. -/
def applyOp {F : Type} [FloatOps F] : QueueOp F → List (Toast F) → List (Toast F)
  | .showOp message level now, q => Show message level now q
  | .renderOp fr, q => (RenderAll fr q).1

/-- The queue after a sequence of operations, oldest first. -/
def runOps {F : Type} [FloatOps F] (ops : List (QueueOp F)) (q : List (Toast F)) :
    List (Toast F) :=
  ops.foldl (fun q op => applyOp op q) q

/-- What identifies a drawn toast: message, level and the alpha it is drawn with. -/
def drawKey {F : Type} (d : DrawCmd F) : String × ToastLevel × F :=
  (d.message, d.level, d.alpha)

/-- What identifies a stored toast in the draw list. -/
def toastKey {F : Type} (t : Toast F) : String × ToastLevel × F :=
  (t.message, t.level, t.alpha)

/-- A rational that some rounding produces: a binary32 value. -/
def Rep (a : ℚ) : Prop := ∃ z, roundQ z = a

/-- An opacity a stored toast may have: a finite binary32 value in `(0, 1]`. -/
def GoodAlpha (x : F32) : Prop := ∃ a, x = F32.fin a ∧ 0 < a ∧ a ≤ 1 ∧ Rep a

/-- The invariant of the stored queue: every toast has an opacity in `(0, 1]` and the fade
speed given by `Show`. -/
def QueueInv (q : List (Toast F32)) : Prop :=
  ∀ t ∈ q, GoodAlpha t.alpha ∧ t.fadeSpeed = FloatOps.lit (3 / 4)

/-- A binary32 frame with a given time and delta time. -/
def frame32 (time deltaTime : F32) : Frame F32 :=
  { time := time, deltaTime := deltaTime, displayW := F32.fin 600, displayH := F32.fin 150,
    textHeight := fun _ _ => F32.fin 13 }

/-- The binary32 value of the literal `0.1f`. -/
def tenth32 : F32 := F32.fin (13421773 / 134217728)

/-! ## Lemmas on the loop of `RenderAll` -/

theorem copyBack_eq {F : Type} (l : List (Toast F)) : copyBack l = l.reverse := by
  unfold copyBack
  have h : ∀ (xs acc : List (Toast F)),
      xs.foldl (fun toastQueue t => toastQueue ++ [t]) acc = acc ++ xs := by
    intro xs
    induction xs with
    | nil => intro acc; simp
    | cons x xs ih => intro acc; simp [ih]
  simpa using h l.reverse []

theorem renderToast_updated {F : Type} [FloatOps F] (fr : Frame F) (st : LoopState F)
    (t : Toast F) :
    (renderToast fr st t).updatedToasts = st.updatedToasts ++ (keepToast fr t).toList := by
  obtain ⟨m, l, a, fs, dt, stt, f, v⟩ := t
  unfold renderToast keepToast agedOut ageNotice drawToast
  cases f <;>
    cases hg : FloatOps.gt (FloatOps.sub fr.time stt) dt <;>
    cases hl : FloatOps.le (FloatOps.sub a (FloatOps.mul fs fr.deltaTime))
      (FloatOps.lit 0) <;>
    simp [hl, hg]

theorem foldl_renderToast_updated {F : Type} [FloatOps F] (fr : Frame F) (l : List (Toast F))
    (st : LoopState F) :
    (l.foldl (renderToast fr) st).updatedToasts
      = st.updatedToasts ++ l.filterMap (keepToast fr) := by
  induction l generalizing st with
  | nil => simp
  | cons x xs ih =>
    simp only [List.foldl_cons, ih, renderToast_updated, List.filterMap_cons]
    cases keepToast fr x <;> simp

theorem RenderAll_fst {F : Type} [FloatOps F] (fr : Frame F) (q : List (Toast F)) :
    (RenderAll fr q).1 = q.filterMap (keepToast fr) := by
  unfold RenderAll renderLoop
  simp only [copyBack_eq, foldl_renderToast_updated, List.nil_append, List.filterMap_reverse,
    List.reverse_reverse]

theorem filterMap_keepToast {F : Type} [FloatOps F] (fr : Frame F) (q : List (Toast F)) :
    q.filterMap (keepToast fr) = agedQueue fr q := by
  unfold agedQueue
  induction q with
  | nil => rfl
  | cons x xs ih =>
    simp only [List.filterMap_cons, List.map_cons, List.filter_cons, ih, keepToast]
    cases agedOut (ageNotice fr x) <;> simp

theorem ageNotice_message {F : Type} [FloatOps F] (fr : Frame F) (t : Toast F) :
    (ageNotice fr t).message = t.message ∧ (ageNotice fr t).level = t.level := by
  simp [ageNotice]

theorem readPipe_acc (reads : List ReadResult) (acc : List Char) :
    readPipe reads acc = acc ++ readPipe reads [] := by
  induction reads generalizing acc with
  | nil => simp [readPipe]
  | cons r rest ih =>
    unfold readPipe
    split
    · rw [ih (acc ++ r.bytes), ih ([] ++ r.bytes)]; simp
    · simp

theorem readPipe_eq_flatten (reads : List ReadResult) :
    readPipe reads [] =
      ((reads.takeWhile (fun r => r.ok && decide (r.bytes.length > 0))).map
        ReadResult.bytes).flatten := by
  induction reads with
  | nil => simp [readPipe]
  | cons r rest ih =>
    unfold readPipe
    rw [List.takeWhile_cons]
    split
    · rw [readPipe_acc, ih]; simp
    · simp

/-! ## Claims on the notification queue -/

/-- C2: with no concurrent `Show`, the queue stored by `RenderAll` is the input queue with
every notice aged and then exactly the fading notices of opacity `<= 0` dropped; the
survivors keep their relative order, and ageing changes neither message nor level. -/
theorem C2_RenderAll_stores_aged_filtered_queue {F : Type} [FloatOps F] (fr : Frame F)
    (q : List (Toast F)) :
    (RenderAll fr q).1
        = (q.map (ageNotice fr)).filter
            (fun t => !(t.isFading && FloatOps.le t.alpha (FloatOps.lit 0))) ∧
      (RenderAll fr q).1 = agedQueue fr q ∧
      (RenderAll fr q).1.Sublist (q.map (ageNotice fr)) ∧
      ((RenderAll fr q).1.map (fun t => (t.message, t.level))).Sublist
        (q.map (fun t => (t.message, t.level))) ∧
      (∀ t : Toast F, (ageNotice fr t).message = t.message ∧ (ageNotice fr t).level = t.level ∧
        (ageNotice fr t).startTime = t.startTime ∧ (ageNotice fr t).fadeSpeed = t.fadeSpeed ∧
        (ageNotice fr t).displayTime = t.displayTime) := by
  have h : (RenderAll fr q).1 = agedQueue fr q := by
    rw [RenderAll_fst, filterMap_keepToast]
  have hsub : (RenderAll fr q).1.Sublist (q.map (ageNotice fr)) := by
    rw [h]; exact List.filter_sublist _
  refine ⟨h, h, hsub, ?_, ?_⟩
  · have h2 := hsub.map (fun t : Toast F => (t.message, t.level))
    have h3 : (q.map (ageNotice fr)).map (fun t : Toast F => (t.message, t.level))
        = q.map (fun t => (t.message, t.level)) := by
      rw [List.map_map]
      apply List.map_congr_left
      intro t _
      simp [ageNotice]
    rwa [h3] at h2
  · intro t
    simp [ageNotice]

/-- C1: a `Show` that runs between the two locked blocks of `RenderAll` is overwritten: the
queue after the pass is the aged copy of the queue before it, and the notice posted in
between, though at full opacity and kept by a pass that runs after it, is gone. -/
theorem C1_show_between_snapshot_and_replace_is_lost :
    (∀ (s : QueueState ℚ) (fr : Frame ℚ) (message : String) (level : ToastLevel) (now : ℚ),
      (replaceStep fr (showStep message level now (snapshotStep s))).toastQueue
        = (RenderAll fr s.toastQueue).1) ∧
    (replaceStep (frameAt 0 0) (showStep "x" ToastLevel.Info 0
        (snapshotStep { toastQueue := [], localToastQueue := [] }))).toastQueue = [] ∧
    (RenderAll (frameAt 0 0) (Show "x" ToastLevel.Info (0 : ℚ) [])).1
      = Show "x" ToastLevel.Info (0 : ℚ) [] := by
  refine ⟨?_, ?_, ?_⟩
  · intro s fr message level now
    rfl
  · rfl
  · rw [RenderAll_fst]
    simp [Show, keepToast, agedOut, ageNotice, frameAt, FloatOps.gt, FloatOps.sub, FloatOps.lit]

/-! ## Claims on the process runner -/

/-- C6: on success the returned text is the bytes read, in order, without any line feed or
carriage return; it contains neither, and normalising it again changes nothing. -/
theorem C6_captured_text_is_bytes_without_line_terminators {F : Type} [FloatOps F]
    (env : ProcEnv) (command : String) (w : World F)
    (hpipe : env.createPipeOk = true) (hspawn : env.createProcessOk = true) :
    (RunCommandAndCaptureOutput env command w).1.data
        = (readPipe env.reads []).filter (fun c => c != '\n' && c != '\r') ∧
      readPipe env.reads []
        = ((env.reads.takeWhile (fun r => r.ok && decide (r.bytes.length > 0))).map
            ReadResult.bytes).flatten ∧
      '\n' ∉ (RunCommandAndCaptureOutput env command w).1.data ∧
      '\r' ∉ (RunCommandAndCaptureOutput env command w).1.data ∧
      String.mk (eraseRemove '\r' (eraseRemove '\n'
          (RunCommandAndCaptureOutput env command w).1.data))
        = (RunCommandAndCaptureOutput env command w).1 := by
  have h : (RunCommandAndCaptureOutput env command w).1.data
      = (readPipe env.reads []).filter (fun c => c != '\n' && c != '\r') := by
    simp [RunCommandAndCaptureOutput, hpipe, hspawn, eraseRemove, List.filter_filter,
      Bool.and_comm]
  refine ⟨h, readPipe_eq_flatten env.reads, ?_, ?_, ?_⟩
  · rw [h]; simp [List.mem_filter]
  · rw [h]; simp [List.mem_filter]
  · apply String.ext
    rw [h]
    simp [eraseRemove, List.filter_filter]
    apply List.filter_congr
    intro c _
    cases (c != '\n') <;> cases (c != '\r') <;> rfl

/-- A run that reads `"a\r\nb"` in two chunks returns `"ab"`. -/
theorem C6_captured_text_witness :
    (RunCommandAndCaptureOutput
        { createPipeOk := true, createProcessOk := true, lastError := 0,
          reads := [⟨true, ['a', '\r']⟩, ⟨true, ['\n', 'b']⟩] }
        "cmd"
        ({ debugBuild := false, hasContext := true, time := 0, toastQueue := [], console := [],
           downloadComplete := true, ytDlpExists := true, commands := [] } : World ℚ)).1.data
      = ['a', 'b'] := by
  have h := (C6_captured_text_is_bytes_without_line_terminators
    { createPipeOk := true, createProcessOk := true, lastError := 0,
      reads := [⟨true, ['a', '\r']⟩, ⟨true, ['\n', 'b']⟩] }
    "cmd"
    ({ debugBuild := false, hasContext := true, time := 0, toastQueue := [], console := [],
       downloadComplete := true, ytDlpExists := true, commands := [] } : World ℚ)
    rfl rfl).1
  rw [h]
  decide

/-! ## Lemmas on logging -/

theorem spdlog_log_fields {F : Type} [FloatOps F] (lvl : LogLevel) (p : String) (w : World F) :
    (spdlog_log lvl p w).downloadComplete = w.downloadComplete ∧
      (spdlog_log lvl p w).commands = w.commands ∧
      (spdlog_log lvl p w).ytDlpExists = w.ytDlpExists ∧
      (spdlog_log lvl p w).hasContext = w.hasContext ∧
      (spdlog_log lvl p w).debugBuild = w.debugBuild ∧
      (spdlog_log lvl p w).time = w.time := by
  unfold spdlog_log ToastSink_log
  split
  · simp
  · split <;> simp

@[simp] theorem spdlog_log_downloadComplete {F : Type} [FloatOps F] (lvl : LogLevel)
    (p : String) (w : World F) :
    (spdlog_log lvl p w).downloadComplete = w.downloadComplete :=
  (spdlog_log_fields lvl p w).1

@[simp] theorem spdlog_log_commands {F : Type} [FloatOps F] (lvl : LogLevel)
    (p : String) (w : World F) : (spdlog_log lvl p w).commands = w.commands :=
  (spdlog_log_fields lvl p w).2.1

@[simp] theorem spdlog_log_ytDlpExists {F : Type} [FloatOps F] (lvl : LogLevel)
    (p : String) (w : World F) : (spdlog_log lvl p w).ytDlpExists = w.ytDlpExists :=
  (spdlog_log_fields lvl p w).2.2.1

@[simp] theorem spdlog_log_hasContext {F : Type} [FloatOps F] (lvl : LogLevel)
    (p : String) (w : World F) : (spdlog_log lvl p w).hasContext = w.hasContext :=
  (spdlog_log_fields lvl p w).2.2.2.1

@[simp] theorem spdlog_log_debugBuild {F : Type} [FloatOps F] (lvl : LogLevel)
    (p : String) (w : World F) : (spdlog_log lvl p w).debugBuild = w.debugBuild :=
  (spdlog_log_fields lvl p w).2.2.2.2.1

theorem countLevel_append {F : Type} (level : ToastLevel) (q r : List (Toast F)) :
    countLevel level (q ++ r) = countLevel level q + countLevel level r := by
  simp [countLevel]

/-- With a context, a log call adds at most one toast, of the level the sink maps to. -/
theorem spdlog_log_count {F : Type} [FloatOps F] (lvl : LogLevel) (p : String) (w : World F)
    (level : ToastLevel) (hctx : w.hasContext = true) :
    countLevel level (spdlog_log lvl p w).toastQueue
      = countLevel level w.toastQueue +
          (if (loggerLevel w.debugBuild).toNat ≤ lvl.toNat ∧ sinkLevel lvl = level then 1
           else 0) := by
  unfold spdlog_log ToastSink_log
  by_cases h : lvl.toNat < (loggerLevel w.debugBuild).toNat
  · have h2 : ¬ (loggerLevel w.debugBuild).toNat ≤ lvl.toNat := by omega
    simp [h, h2]
  · have h2 : (loggerLevel w.debugBuild).toNat ≤ lvl.toNat := by omega
    simp only [h, if_false, hctx, Bool.not_true, Bool.false_eq_true, Show, countLevel_append]
    congr 1
    cases lvl <;> cases level <;> simp [countLevel, sinkLevel, h2]

theorem RunCommand_fields {F : Type} [FloatOps F] (pe : ProcEnv) (c : String) (w : World F) :
    (RunCommandAndCaptureOutput pe c w).2.downloadComplete = w.downloadComplete ∧
      (RunCommandAndCaptureOutput pe c w).2.commands = w.commands ++ [c] ∧
      (RunCommandAndCaptureOutput pe c w).2.ytDlpExists = w.ytDlpExists ∧
      (RunCommandAndCaptureOutput pe c w).2.hasContext = w.hasContext ∧
      (RunCommandAndCaptureOutput pe c w).2.debugBuild = w.debugBuild := by
  unfold RunCommandAndCaptureOutput
  split
  · simp
  · split <;> simp

theorem RunCommand_stub {F : Type} [FloatOps F] (pe : ProcEnv) (c s : String) (w : World F)
    (h : StubReturns pe s) :
    RunCommandAndCaptureOutput pe c w = (s, { w with commands := w.commands ++ [c] }) := by
  obtain ⟨h1, h2, h3⟩ := h
  simp [RunCommandAndCaptureOutput, h1, h2, h3]

theorem EnsureYtDlp_present {F : Type} [FloatOps F] (env : Env) (w : World F)
    (h : w.ytDlpExists = true) :
    EnsureYtDlp env w = spdlog_log .debug "yt-dlp.exe already exists, skipping download." w := by
  simp [EnsureYtDlp, h]

/-! ## Lemmas on the worker body -/

theorem DownloadThreadBody_done {F : Type} [FloatOps F] (env : Env) (audioOnly : Bool)
    (url : String) (w : World F) :
    (DownloadThreadBody env audioOnly url w).downloadComplete = true := by
  unfold DownloadThreadBody
  simp only []
  split <;> simp

/-- The worker body when the tool is present and the metadata run returns `name`. -/
theorem DownloadThreadBody_present {F : Type} [FloatOps F] (env : Env) (audioOnly : Bool)
    (url name : String) (w : World F) (hex : w.ytDlpExists = true)
    (hstub : StubReturns (env.os w.commands.length (getNameCmd url)) name) :
    DownloadThreadBody env audioOnly url w =
      (let w1 := spdlog_log .debug "yt-dlp.exe already exists, skipping download." w
       let w2 : World F := { w1 with commands := w1.commands ++ [getNameCmd url] }
       if name.isEmpty then
         { spdlog_log .err "Could not determine output filename." w2 with
           downloadComplete := true }
       else
         let w3 := spdlog_log .debug ("Running command: " ++ downloadCmd audioOnly url) w2
         let w4 := (RunCommandAndCaptureOutput
           (env.os w3.commands.length (downloadCmd audioOnly url))
           (downloadCmd audioOnly url) w3).2
         { spdlog_log .info ("Download complete: " ++
             (if audioOnly then replace_extension name ".mp3"
              else replace_extension name ".mp4")) w4 with
           downloadComplete := true }) := by
  unfold DownloadThreadBody
  rw [EnsureYtDlp_present _ _ hex]
  have hstub2 : StubReturns
      (env.os (spdlog_log .debug "yt-dlp.exe already exists, skipping download." w).commands.length
        (getNameCmd url)) name := by
    rw [spdlog_log_commands]; exact hstub
  simp only [RunCommand_stub _ _ _ _ hstub2]

/-! ## Claims on the download worker -/

/-- C7: `DownloadThread` returns with `downloadComplete` true on every path; with the tool
binary present, an ImGui context, and a metadata run that returns the empty string, it posts
exactly one Error toast and runs no second command. -/
theorem C7_empty_metadata_one_error_no_transfer {F : Type} [FloatOps F] (env : Env)
    (audioOnly : Bool) (url : String) (w : World F) :
    (DownloadThread env audioOnly url w).downloadComplete = true ∧
      (w.ytDlpExists = true → w.hasContext = true →
        StubReturns (env.os w.commands.length (getNameCmd url)) "" →
        countLevel ToastLevel.Error (DownloadThread env audioOnly url w).toastQueue
            = countLevel ToastLevel.Error w.toastQueue + 1 ∧
          (DownloadThread env audioOnly url w).commands = w.commands ++ [getNameCmd url] ∧
          (DownloadThread env audioOnly url w).downloadComplete = true) := by
  have hdone : (DownloadThread env audioOnly url w).downloadComplete = true :=
    DownloadThreadBody_done env audioOnly url _
  refine ⟨hdone, ?_⟩
  intro hex hctx hstub
  have hbody := DownloadThreadBody_present env audioOnly url ""
    { w with downloadComplete := false } hex hstub
  refine ⟨?_, ?_, hdone⟩
  · unfold DownloadThread
    rw [hbody]
    simp only [String.isEmpty_iff, if_true]
    rw [spdlog_log_count _ _ _ _ (by simp [hctx])]
    simp only [spdlog_log_debugBuild]
    rw [spdlog_log_count _ _ _ _ (by simp [hctx])]
    cases w.debugBuild <;> simp [sinkLevel, loggerLevel, LogLevel.toNat]
  · unfold DownloadThread
    rw [hbody]
    simp [String.isEmpty_iff]

/-- A release-build run with the tool present and a process that prints nothing. -/
theorem C7_empty_metadata_witness :
    countLevel ToastLevel.Error
        (DownloadThread (stubEnv "" 200) true "https://youtu.be/AAAAAAAAAAA"
          (idleWorld true)).toastQueue
        = countLevel ToastLevel.Error (idleWorld true).toastQueue + 1 ∧
      (DownloadThread (stubEnv "" 200) true "https://youtu.be/AAAAAAAAAAA"
          (idleWorld true)).commands
        = (idleWorld true).commands ++ [getNameCmd "https://youtu.be/AAAAAAAAAAA"] ∧
      (DownloadThread (stubEnv "" 200) true "https://youtu.be/AAAAAAAAAAA"
          (idleWorld true)).downloadComplete = true :=
  (C7_empty_metadata_one_error_no_transfer (stubEnv "" 200) true
    "https://youtu.be/AAAAAAAAAAA" (idleWorld true)).2 rfl rfl
    ⟨rfl, rfl, by decide⟩

theorem spdlog_log_queue {F : Type} [FloatOps F] (lvl : LogLevel) (p : String) (w : World F)
    (hctx : w.hasContext = true) (hlvl : (loggerLevel w.debugBuild).toNat ≤ lvl.toNat) :
    (spdlog_log lvl p w).toastQueue = Show p (sinkLevel lvl) w.time w.toastQueue := by
  unfold spdlog_log ToastSink_log
  have h : ¬ lvl.toNat < (loggerLevel w.debugBuild).toNat := by omega
  simp only [h, if_false, hctx, Bool.not_true, Bool.false_eq_true]
  cases lvl <;> simp [sinkLevel, loggerLevel, LogLevel.toNat] at hlvl ⊢

theorem info_passes (b : Bool) : (loggerLevel b).toNat ≤ LogLevel.info.toNat := by
  cases b <;> simp [loggerLevel, LogLevel.toNat]

/-- The application after an accepted click and the run of its worker to the end. -/
theorem startAction_then_join {F : Type} [FloatOps F] (env : Env) (a : App F)
    (hvalid : a.urlValid = true) (hidle : a.world.downloadComplete = true)
    (hprev : ∀ t, a.downloadThread = some t → t.pc = WorkerPc.returned) :
    (joinThread env (startAction env a)).world
      = DownloadThread env (decide (a.format = Format.MP3)) a.buffer
          (spdlog_log .info "Starting download.." a.world) := by
  unfold startAction
  simp only [hvalid, hidle, Bool.not_true, Bool.or_self, Bool.false_eq_true, if_false]
  cases hthr : a.downloadThread with
  | none => simp [joinThread, workerStep, DownloadThread]
  | some t =>
    have hpc := hprev t hthr
    cases hj : t.joined <;>
      simp [joinThread, workerStep, DownloadThread, hthr, hpc, hj]

/-- C8 as stated fails: from the click on, a task whose metadata run prints `clip.webm` posts
two Info toasts, not one. -/
theorem C8_start_posts_two_info_notices :
    countLevel ToastLevel.Info
        (joinThread (stubEnv "clip.webm\n" 200)
          (startAction (stubEnv "clip.webm\n" 200) (idleApp Format.MP3))).world.toastQueue = 2 ∧
      countLevel ToastLevel.Info
        (joinThread (stubEnv "clip.webm\n" 200)
          (startAction (stubEnv "clip.webm\n" 200) (idleApp Format.MP3))).world.toastQueue ≠ 1 := by
  decide

theorem Show_getLast {F : Type} [FloatOps F] (message : String) (level : ToastLevel)
    (now : F) (q : List (Toast F)) :
    (Show message level now q).getLast? =
      some { message := message, level := level,
             startTime := now, isFading := false, isVisible := true,
             alpha := FloatOps.lit 1, fadeSpeed := FloatOps.lit (3 / 4),
             displayTime := FloatOps.lit 3 } := by
  simp [Show]

theorem RunCommand_count_info {F : Type} [FloatOps F] (pe : ProcEnv) (c : String)
    (w : World F) (hctx : w.hasContext = true) :
    countLevel ToastLevel.Info (RunCommandAndCaptureOutput pe c w).2.toastQueue
      = countLevel ToastLevel.Info w.toastQueue := by
  unfold RunCommandAndCaptureOutput
  split
  · simp only []
    rw [spdlog_log_count _ _ _ _ (by simp [hctx])]
    simp [sinkLevel]
  · split
    · simp only []
      rw [spdlog_log_count _ _ _ _ (by simp [hctx])]
      simp [sinkLevel]
    · simp

/-- The worker with the tool present and a metadata run that returns a non-empty `name`:
one more Info toast, and the last toast reports the name with the extension of the mode. -/
theorem DownloadThread_named {F : Type} [FloatOps F] (env : Env) (audioOnly : Bool)
    (url name : String) (w : World F) (hex : w.ytDlpExists = true)
    (hctx : w.hasContext = true)
    (hstub : StubReturns (env.os w.commands.length (getNameCmd url)) name)
    (hne : name ≠ "") :
    countLevel ToastLevel.Info (DownloadThread env audioOnly url w).toastQueue
        = countLevel ToastLevel.Info w.toastQueue + 1 ∧
      ∃ t, (DownloadThread env audioOnly url w).toastQueue.getLast? = some t ∧
        t.level = ToastLevel.Info ∧
        t.message = "Download complete: " ++
          replace_extension name (if audioOnly then ".mp3" else ".mp4") := by
  have hbody := DownloadThreadBody_present env audioOnly url name
    { w with downloadComplete := false } hex hstub
  have hemp : name.isEmpty = false := by
    cases h : name.isEmpty
    · rfl
    · exact absurd ((String.isEmpty_iff name).1 h) hne
  unfold DownloadThread
  rw [hbody]
  simp only [hemp, Bool.false_eq_true, if_false]
  constructor
  · rw [spdlog_log_count _ _ _ _ (by simp [RunCommand_fields, hctx])]
    rw [RunCommand_count_info _ _ _ (by simp [hctx])]
    rw [spdlog_log_count _ _ _ _ (by simp [hctx])]
    simp only []
    rw [spdlog_log_count _ _ _ _ (by simp [hctx])]
    simp [sinkLevel, RunCommand_fields, info_passes]
  · rw [spdlog_log_queue _ _ _ (by simp [RunCommand_fields, hctx])
      (by simp only [RunCommand_fields, spdlog_log_debugBuild]; exact info_passes _)]
    refine ⟨_, Show_getLast _ _ _ _, rfl, ?_⟩
    cases audioOnly <;> simp

/-- C8, amended: with the tool present, a context, and a metadata run that returns a non-empty
name, the worker started by an accepted click posts exactly one Info toast, the last one,
which reports the name with its extension replaced by `.mp3` (MP3) or `.mp4` (MP4); the
click itself posts one Info toast before, so the whole start posts two; and `clip.webm`
gives `clip.mp3`. -/
theorem C8_worker_reports_name_with_mode_extension {F : Type} [FloatOps F] (env : Env)
    (a : App F) (name : String)
    (hvalid : a.urlValid = true) (hidle : a.world.downloadComplete = true)
    (hprev : ∀ t, a.downloadThread = some t → t.pc = WorkerPc.returned)
    (hex : a.world.ytDlpExists = true) (hctx : a.world.hasContext = true)
    (hstub : StubReturns (env.os a.world.commands.length (getNameCmd a.buffer)) name)
    (hne : name ≠ "") :
    (joinThread env (startAction env a)).world
        = DownloadThread env (decide (a.format = Format.MP3)) a.buffer
            (spdlog_log .info "Starting download.." a.world) ∧
      countLevel ToastLevel.Info
          (DownloadThread env (decide (a.format = Format.MP3)) a.buffer
            (spdlog_log .info "Starting download.." a.world)).toastQueue
        = countLevel ToastLevel.Info
            (spdlog_log .info "Starting download.." a.world).toastQueue + 1 ∧
      countLevel ToastLevel.Info (spdlog_log .info "Starting download.." a.world).toastQueue
        = countLevel ToastLevel.Info a.world.toastQueue + 1 ∧
      countLevel ToastLevel.Info (joinThread env (startAction env a)).world.toastQueue
        = countLevel ToastLevel.Info a.world.toastQueue + 2 ∧
      (∃ t, (joinThread env (startAction env a)).world.toastQueue.getLast? = some t ∧
        t.level = ToastLevel.Info ∧
        t.message = "Download complete: " ++
          replace_extension name (if a.format = Format.MP3 then ".mp3" else ".mp4")) ∧
      replace_extension "clip.webm" ".mp3" = "clip.mp3" := by
  have hfinal := startAction_then_join env a hvalid hidle hprev
  have hstart : countLevel ToastLevel.Info
      (spdlog_log .info "Starting download.." a.world).toastQueue
        = countLevel ToastLevel.Info a.world.toastQueue + 1 := by
    rw [spdlog_log_count _ _ _ _ hctx]
    simp [sinkLevel, info_passes]
  have hworker := DownloadThread_named env (decide (a.format = Format.MP3)) a.buffer name
    (spdlog_log .info "Starting download.." a.world) (by simp [hex]) (by simp [hctx])
    (by simpa using hstub) hne
  refine ⟨hfinal, hworker.1, hstart, ?_, ?_, by decide⟩
  · rw [hfinal, hworker.1, hstart]
  · rw [hfinal]
    obtain ⟨t, h1, h2, h3⟩ := hworker.2
    refine ⟨t, h1, h2, ?_⟩
    rw [h3]
    by_cases hf : a.format = Format.MP3 <;> simp [hf]

/-- The start of an MP3 task whose metadata run prints `clip.webm`. -/
theorem C8_worker_reports_name_witness :
    ∃ t, (joinThread (stubEnv "clip.webm\n" 200)
          (startAction (stubEnv "clip.webm\n" 200) (idleApp Format.MP3))).world.toastQueue.getLast?
        = some t ∧
      t.level = ToastLevel.Info ∧
      t.message = "Download complete: " ++
        replace_extension "clip.webm"
          (if (idleApp Format.MP3).format = Format.MP3 then ".mp3" else ".mp4") :=
  (C8_worker_reports_name_with_mode_extension (stubEnv "clip.webm\n" 200)
    (idleApp Format.MP3) "clip.webm" rfl rfl (by intro t h; cases h) rfl rfl
    ⟨rfl, rfl, by decide⟩ (by decide)).2.2.2.2.1

/-! ## Lemmas on the console sink -/

theorem spdlog_log_console {F : Type} [FloatOps F] (lvl : LogLevel) (p : String) (w : World F) :
    (spdlog_log lvl p w).console
      = w.console ++
          (if lvl.toNat < (loggerLevel w.debugBuild).toNat then [] else [(lvl, p)]) := by
  unfold spdlog_log ToastSink_log
  split
  · simp
  · split <;> simp

theorem spdlog_log_err_console {F : Type} [FloatOps F] (p : String) (w : World F) :
    (spdlog_log .err p w).console = w.console ++ [(LogLevel.err, p)] := by
  rw [spdlog_log_console]
  cases w.debugBuild <;> simp [loggerLevel, LogLevel.toNat]

theorem spdlog_log_console_mem {F : Type} [FloatOps F] (lvl : LogLevel) (p : String)
    (w : World F) (x : LogLevel × String) (h : x ∈ w.console) :
    x ∈ (spdlog_log lvl p w).console := by
  rw [spdlog_log_console]
  exact List.mem_append_left _ h

theorem RunCommand_console_mem {F : Type} [FloatOps F] (pe : ProcEnv) (c : String)
    (w : World F) (x : LogLevel × String) (h : x ∈ w.console) :
    x ∈ (RunCommandAndCaptureOutput pe c w).2.console := by
  unfold RunCommandAndCaptureOutput
  split
  · exact spdlog_log_console_mem _ _ _ _ h
  · split
    · exact spdlog_log_console_mem _ _ _ _ h
    · exact h

theorem DownloadThreadBody_console_mem {F : Type} [FloatOps F] (env : Env) (audioOnly : Bool)
    (url : String) (w : World F) (x : LogLevel × String)
    (h : x ∈ (EnsureYtDlp env w).console) :
    x ∈ (DownloadThreadBody env audioOnly url w).console := by
  unfold DownloadThreadBody
  simp only []
  split
  · exact spdlog_log_console_mem _ _ _ _ (RunCommand_console_mem _ _ _ _ h)
  · exact spdlog_log_console_mem _ _ _ _ (RunCommand_console_mem _ _ _ _
      (spdlog_log_console_mem _ _ _ _ (RunCommand_console_mem _ _ _ _ h)))

theorem EnsureYtDlp_commands {F : Type} [FloatOps F] (env : Env) (w : World F) :
    (EnsureYtDlp env w).commands = w.commands := by
  unfold EnsureYtDlp
  split
  · simp only []
    split <;> simp
  · simp

theorem RunCommand_fst_indep {F : Type} [FloatOps F] (pe : ProcEnv) (c : String)
    (w w' : World F) :
    (RunCommandAndCaptureOutput pe c w).1 = (RunCommandAndCaptureOutput pe c w').1 := by
  unfold RunCommandAndCaptureOutput
  split
  · rfl
  · split <;> rfl

/-- The commands the worker body runs: the metadata command, followed by the transfer command
exactly when the metadata run returned a non-empty text. -/
theorem DownloadThreadBody_commands {F : Type} [FloatOps F] (env : Env) (audioOnly : Bool)
    (url : String) (w w' : World F) :
    (DownloadThreadBody env audioOnly url w).commands
      = if (RunCommandAndCaptureOutput (env.os w.commands.length (getNameCmd url))
              (getNameCmd url) w').1.isEmpty
        then w.commands ++ [getNameCmd url]
        else w.commands ++ [getNameCmd url, downloadCmd audioOnly url] := by
  unfold DownloadThreadBody
  simp only [EnsureYtDlp_commands]
  rw [RunCommand_fst_indep _ _ w' (EnsureYtDlp env w)]
  split
  · simp [RunCommand_fields, EnsureYtDlp_commands]
  · simp [RunCommand_fields, EnsureYtDlp_commands]

theorem failure_messages_differ (m n : String) :
    "CreatePipe failed, err=" ++ m ≠ "CreateProcess failed, err=" ++ n := by
  intro h
  have h2 := congrArg (fun s : String => s.data.get? 7) h
  simp at h2

/-- C9 as stated fails: with the tool missing and the fetch answered by status 404, the
worker still runs the metadata command. -/
theorem C9_failed_fetch_still_runs_metadata :
    (DownloadThread (failingEnv 404) true "https://youtu.be/AAAAAAAAAAA"
        (idleWorld false)).commands
        = [getNameCmd "https://youtu.be/AAAAAAAAAAA"] ∧
      (DownloadThread (failingEnv 404) true "https://youtu.be/AAAAAAAAAAA"
        (idleWorld false)).commands ≠ [] := by
  decide

/-- C9, amended: when the tool binary is missing and the fetch fails, the worker logs the
fetch error and goes on: it runs the metadata command, runs the transfer command as well
exactly when the metadata run returns a non-empty name, and returns with `downloadComplete`
true. -/
theorem C9_failed_fetch_logs_and_continues {F : Type} [FloatOps F] (env : Env)
    (audioOnly : Bool) (url : String) (w : World F)
    (hmissing : w.ytDlpExists = false) (hfetch : env.http.status_code ≠ 200) :
    (DownloadThread env audioOnly url w).downloadComplete = true ∧
      ((RunCommandAndCaptureOutput (env.os w.commands.length (getNameCmd url))
            (getNameCmd url) w).1 = "" →
        (DownloadThread env audioOnly url w).commands = w.commands ++ [getNameCmd url]) ∧
      ((RunCommandAndCaptureOutput (env.os w.commands.length (getNameCmd url))
            (getNameCmd url) w).1 ≠ "" →
        (DownloadThread env audioOnly url w).commands
          = w.commands ++ [getNameCmd url, downloadCmd audioOnly url]) ∧
      (LogLevel.err, "Download failed: " ++ toString env.http.status_code)
        ∈ (DownloadThread env audioOnly url w).console := by
  have hcmds := DownloadThreadBody_commands env audioOnly url
    { w with downloadComplete := false } w
  refine ⟨DownloadThreadBody_done env audioOnly url _, ?_, ?_, ?_⟩
  · intro hname
    unfold DownloadThread
    rw [hcmds, hname]
    rfl
  · intro hname
    have hemp : (RunCommandAndCaptureOutput (env.os w.commands.length (getNameCmd url))
        (getNameCmd url) w).1.isEmpty = false := by
      cases h : (RunCommandAndCaptureOutput (env.os w.commands.length (getNameCmd url))
        (getNameCmd url) w).1.isEmpty
      · rfl
      · exact absurd ((String.isEmpty_iff _).1 h) hname
    unfold DownloadThread
    rw [hcmds]
    simp only [hemp, Bool.false_eq_true, if_false]
  · unfold DownloadThread
    apply DownloadThreadBody_console_mem
    unfold EnsureYtDlp
    simp only [hmissing, Bool.not_false, if_true, hfetch, if_false]
    rw [spdlog_log_err_console]
    simp

/-- A release-build run with the tool missing, status 404, and processes that can still be
run and print `clip.webm`: the metadata command and the transfer command are both run. -/
theorem C9_failed_fetch_witness :
    (DownloadThread (stubEnv "clip.webm\n" 404) false "https://youtu.be/AAAAAAAAAAA"
        (idleWorld false)).commands
      = (idleWorld false).commands ++
          [getNameCmd "https://youtu.be/AAAAAAAAAAA",
           downloadCmd false "https://youtu.be/AAAAAAAAAAA"] :=
  (C9_failed_fetch_logs_and_continues (stubEnv "clip.webm\n" 404) false
    "https://youtu.be/AAAAAAAAAAA" (idleWorld false) rfl (by decide)).2.2.1 (by decide)

/-! ## Claims on the start action -/

theorem workerStep_spawned {F : Type} [FloatOps F] (env : Env) (a : App F) :
    (workerStep env a).spawned = a.spawned := by
  unfold workerStep
  split
  · rfl
  · split <;> rfl

theorem startAction_spawned {F : Type} [FloatOps F] (env : Env) (a : App F)
    (hvalid : a.urlValid = true) (hidle : a.world.downloadComplete = true) :
    (startAction env a).spawned = a.spawned + 1 := by
  unfold startAction
  simp only [hvalid, hidle, Bool.not_true, Bool.or_self, Bool.false_eq_true, if_false]
  cases a.downloadThread with
  | none => rfl
  | some t =>
    cases hj : t.joined <;> simp [joinThread, workerStep_spawned, hj]

/-- C10: right after an accepted click, before the worker's first statement,
`downloadComplete` is still true, so the task does not count as busy; a click in the next
frame is accepted again: it waits for the first worker to return and starts a second one. -/
theorem C10_flag_still_true_after_accepted_start (env : Env) :
    (startAction env (idleApp Format.MP4)).world.downloadComplete = true ∧
      isBusy (startAction env (idleApp Format.MP4)) = false ∧
      (startAction env (idleApp Format.MP4)).downloadThread
        = some { audioOnly := false, url := "https://youtu.be/AAAAAAAAAAA",
                 pc := WorkerPc.entry, joined := false } ∧
      (startAction env (idleApp Format.MP4)).spawned = 1 ∧
      (startAction env (startAction env (idleApp Format.MP4))).spawned = 2 ∧
      isBusy (workerStep env (startAction env (idleApp Format.MP4))) = true := by
  refine ⟨rfl, rfl, rfl, rfl, ?_, rfl⟩
  rw [startAction_spawned env _ rfl rfl]
  rfl

/-! ## Claims on the result of the process runner -/

/-- C5 as stated fails: a failed pipe, a failed spawn and a successful run that captured
nothing all return the same value, the empty string. -/
theorem C5_failures_and_empty_success_return_the_same :
    (RunCommandAndCaptureOutput
        { createPipeOk := false, createProcessOk := true, lastError := 5, reads := [] }
        "cmd" (idleWorld true)).1
      = (RunCommandAndCaptureOutput
        { createPipeOk := true, createProcessOk := false, lastError := 2, reads := [] }
        "cmd" (idleWorld true)).1 ∧
    (RunCommandAndCaptureOutput
        { createPipeOk := true, createProcessOk := false, lastError := 2, reads := [] }
        "cmd" (idleWorld true)).1
      = (RunCommandAndCaptureOutput
        { createPipeOk := true, createProcessOk := true, lastError := 0, reads := [] }
        "cmd" (idleWorld true)).1 := by
  decide

/-- C5, amended: on a failed pipe and on a failed spawn the function returns the empty string,
as a successful run with no text does; the failing step shows only in the one error logged
before the return, whose text differs between the two, and a successful run logs nothing. -/
theorem C5_failure_returns_empty_and_logs_step {F : Type} [FloatOps F] (pe : ProcEnv)
    (command : String) (w : World F) :
    (pe.createPipeOk = false →
      (RunCommandAndCaptureOutput pe command w).1 = "" ∧
      (RunCommandAndCaptureOutput pe command w).2.console
        = w.console ++ [(LogLevel.err, "CreatePipe failed, err=" ++ toString pe.lastError)]) ∧
    (pe.createPipeOk = true → pe.createProcessOk = false →
      (RunCommandAndCaptureOutput pe command w).1 = "" ∧
      (RunCommandAndCaptureOutput pe command w).2.console
        = w.console ++
            [(LogLevel.err, "CreateProcess failed, err=" ++ toString pe.lastError)]) ∧
    (pe.createPipeOk = true → pe.createProcessOk = true →
      (RunCommandAndCaptureOutput pe command w).2.console = w.console ∧
      (RunCommandAndCaptureOutput pe command w).2.toastQueue = w.toastQueue ∧
      ((RunCommandAndCaptureOutput pe command w).1 = "" ↔
        ∀ c ∈ readPipe pe.reads [], c = '\n' ∨ c = '\r')) ∧
    (∀ m n : String, "CreatePipe failed, err=" ++ m ≠ "CreateProcess failed, err=" ++ n) := by
  refine ⟨?_, ?_, ?_, failure_messages_differ⟩
  · intro h
    simp [RunCommandAndCaptureOutput, h, spdlog_log_err_console]
  · intro h1 h2
    simp [RunCommandAndCaptureOutput, h1, h2, spdlog_log_err_console]
  · intro h1 h2
    simp only [RunCommandAndCaptureOutput, h1, h2, Bool.not_true, Bool.false_eq_true, if_false,
      true_and]
    rw [String.ext_iff]
    simp [eraseRemove, List.filter_filter, List.filter_eq_nil_iff]
    constructor
    · intro h c hc
      by_cases hn : c = '\r'
      · exact Or.inr hn
      · exact Or.inl (h c hc hn)
    · intro h c hc hn
      rcases h c hc with h' | h'
      · exact h'
      · exact absurd h' hn

/-- A failed pipe creation with error code 5. -/
theorem C5_failure_witness :
    (RunCommandAndCaptureOutput
        { createPipeOk := false, createProcessOk := true, lastError := 5, reads := [] }
        "cmd" (idleWorld true)).1 = "" :=
  ((C5_failure_returns_empty_and_logs_step
    { createPipeOk := false, createProcessOk := true, lastError := 5, reads := [] }
    "cmd" (idleWorld true)).1 rfl).1

/-! ## Lemmas on runs of frames -/

theorem renderToast_drawList {F : Type} [FloatOps F] (fr : Frame F) (st : LoopState F)
    (t : Toast F) :
    (renderToast fr st t).drawList.map drawKey
      = st.drawList.map drawKey ++ (keepToast fr t).toList.map toastKey := by
  obtain ⟨m, l, a, fs, dt, stt, f, v⟩ := t
  unfold renderToast keepToast agedOut ageNotice drawToast
  cases f <;>
    cases hg : FloatOps.gt (FloatOps.sub fr.time stt) dt <;>
    cases hl : FloatOps.le (FloatOps.sub a (FloatOps.mul fs fr.deltaTime))
      (FloatOps.lit 0) <;>
    simp [hl, hg, drawKey, toastKey]

theorem foldl_renderToast_drawList {F : Type} [FloatOps F] (fr : Frame F)
    (l : List (Toast F)) (st : LoopState F) :
    (l.foldl (renderToast fr) st).drawList.map drawKey
      = st.drawList.map drawKey ++ (l.filterMap (keepToast fr)).map toastKey := by
  induction l generalizing st with
  | nil => simp
  | cons x xs ih =>
    simp only [List.foldl_cons, ih, renderToast_drawList, List.filterMap_cons]
    cases keepToast fr x <;> simp

theorem RenderAll_snd {F : Type} [FloatOps F] (fr : Frame F) (q : List (Toast F)) :
    (RenderAll fr q).2.map drawKey = (RenderAll fr q).1.reverse.map toastKey := by
  rw [RenderAll_fst]
  unfold RenderAll renderLoop
  simp only [foldl_renderToast_drawList, List.map_nil, List.nil_append, List.filterMap_reverse]

theorem runFrames_nil {F : Type} [FloatOps F] (frames : List (Frame F)) :
    runFrames frames ([] : List (Toast F)) = [] := by
  induction frames with
  | nil => rfl
  | cons fr rest ih => simpa [runFrames, RenderAll_fst] using ih

theorem rne_bounds (x : ℚ) : ⌊x⌋ ≤ rne x ∧ rne x ≤ ⌊x⌋ + 1 := by
  unfold rne
  split_ifs <;> constructor <;> omega

theorem rne_intCast (n : ℤ) : rne (n : ℚ) = n := by
  unfold rne
  simp

theorem rne_mono {x y : ℚ} (h : x ≤ y) : rne x ≤ rne y := by
  have hf : ⌊x⌋ ≤ ⌊y⌋ := Int.floor_mono h
  rcases lt_or_eq_of_le hf with hlt | heq
  · have := (rne_bounds x).2
    have := (rne_bounds y).1
    omega
  · unfold rne
    rw [← heq]
    have hd : x - ⌊x⌋ ≤ y - ⌊x⌋ := by linarith
    split_ifs <;> first | omega | (exfalso; linarith)

theorem rne_le_of_le_intCast {x : ℚ} {n : ℤ} (h : x ≤ n) : rne x ≤ n := by
  have := rne_mono h
  rwa [rne_intCast] at this

theorem le_rne_of_intCast_le {x : ℚ} {n : ℤ} (h : (n : ℚ) ≤ x) : n ≤ rne x := by
  have := rne_mono h
  rwa [rne_intCast] at this

theorem ulp_pos (q : ℚ) : 0 < ulp q := by
  unfold ulp
  positivity

theorem zpow_expo (e : ℤ) : (2 : ℚ) ^ e = 8388608 * (2 : ℚ) ^ (e - 23) := by
  have : e = 23 + (e - 23) := by ring
  conv_lhs => rw [this, zpow_add₀ (by norm_num : (2 : ℚ) ≠ 0)]
  norm_num

theorem zpow_expo_succ (e : ℤ) : (2 : ℚ) ^ (e + 1) = 16777216 * (2 : ℚ) ^ (e - 23) := by
  have : e + 1 = 24 + (e - 23) := by ring
  conv_lhs => rw [this, zpow_add₀ (by norm_num : (2 : ℚ) ≠ 0)]
  norm_num

theorem lt_zpow_expo_succ {x : ℚ} (hx : 0 < x) : x < (2 : ℚ) ^ (expo x + 1) := by
  have h1 : x < ((2 : ℕ) : ℚ) ^ (Int.log 2 x + 1) := Int.lt_zpow_succ_log_self (by norm_num) x
  have h2 : ((2 : ℕ) : ℚ) ^ (Int.log 2 x + 1) ≤ ((2 : ℕ) : ℚ) ^ (expo x + 1) := by
    apply zpow_le_zpow_right₀ (by norm_num)
    unfold expo
    rw [abs_of_pos hx]
    have := le_max_left (Int.log 2 x) (-126)
    omega
  have h3 := lt_of_lt_of_le h1 h2
  simpa using h3

theorem zpow_expo_le {x : ℚ} (hx : 0 < x) (he : -126 < expo x) : (2 : ℚ) ^ expo x ≤ x := by
  have hlog : expo x = Int.log 2 x := by
    unfold expo at he ⊢
    rw [abs_of_pos hx] at he ⊢
    rcases max_cases (Int.log 2 x) (-126) with ⟨h, _⟩ | ⟨h, _⟩
    · exact h
    · rw [h] at he; omega
  rw [hlog]
  have h1 : ((2 : ℕ) : ℚ) ^ Int.log 2 x ≤ x := Int.zpow_log_le_self (by norm_num) hx
  simpa using h1

theorem expo_mono {x y : ℚ} (hx : 0 < x) (h : x ≤ y) : expo x ≤ expo y := by
  unfold expo
  rw [abs_of_pos hx, abs_of_pos (lt_of_lt_of_le hx h)]
  exact max_le_max (Int.log_mono_right hx h) (le_refl _)

theorem roundQ_le_zpow {x : ℚ} (hx : 0 < x) : roundQ x ≤ (2 : ℚ) ^ (expo x + 1) := by
  have h := lt_zpow_expo_succ hx
  rw [zpow_expo_succ] at h ⊢
  have hu := ulp_pos x
  unfold roundQ
  have h2 : x / ulp x ≤ ((16777216 : ℤ) : ℚ) := by
    rw [div_le_iff₀ hu]
    push_cast
    exact le_of_lt h
  have h3 := rne_le_of_le_intCast h2
  have h4 : ((rne (x / ulp x) : ℤ) : ℚ) ≤ 16777216 := by exact_mod_cast h3
  exact mul_le_mul_of_nonneg_right h4 (le_of_lt hu)

theorem zpow_le_roundQ {x : ℚ} (hx : 0 < x) (he : -126 < expo x) :
    (2 : ℚ) ^ expo x ≤ roundQ x := by
  have h := zpow_expo_le hx he
  rw [zpow_expo] at h ⊢
  have hu := ulp_pos x
  unfold roundQ
  have h2 : ((8388608 : ℤ) : ℚ) ≤ x / ulp x := by
    rw [le_div_iff₀ hu]
    push_cast
    exact h
  have h3 := le_rne_of_intCast_le h2
  have h4 : (8388608 : ℚ) ≤ ((rne (x / ulp x) : ℤ) : ℚ) := by exact_mod_cast h3
  exact mul_le_mul_of_nonneg_right h4 (le_of_lt hu)

theorem roundQ_nonpos {x : ℚ} (hx : x ≤ 0) : roundQ x ≤ 0 := by
  unfold roundQ
  have hu := ulp_pos x
  have h2 : x / ulp x ≤ ((0 : ℤ) : ℚ) := by
    simpa using div_nonpos_of_nonpos_of_nonneg hx (le_of_lt hu)
  have h3 := rne_le_of_le_intCast h2
  have h4 : ((rne (x / ulp x) : ℤ) : ℚ) ≤ 0 := by exact_mod_cast h3
  exact mul_nonpos_of_nonpos_of_nonneg h4 (le_of_lt hu)

theorem roundQ_nonneg {x : ℚ} (hx : 0 ≤ x) : 0 ≤ roundQ x := by
  unfold roundQ
  have hu := ulp_pos x
  have h2 : ((0 : ℤ) : ℚ) ≤ x / ulp x := by
    simpa using div_nonneg hx (le_of_lt hu)
  have h3 := le_rne_of_intCast_le h2
  have h4 : (0 : ℚ) ≤ ((rne (x / ulp x) : ℤ) : ℚ) := by exact_mod_cast h3
  exact mul_nonneg h4 (le_of_lt hu)

/-- Rounding does not go above a value that is itself the result of a rounding. -/
theorem roundQ_le_of_le {x z : ℚ} (ha : 0 < roundQ z) (h : x ≤ roundQ z) :
    roundQ x ≤ roundQ z := by
  rcases le_or_lt x 0 with hx | hx
  · exact le_trans (roundQ_nonpos hx) (le_of_lt ha)
  have hz : 0 < z := by
    by_contra hz
    exact absurd (roundQ_nonpos (not_lt.1 hz)) (not_le.2 ha)
  rcases lt_trichotomy (expo x) (expo z) with hlt | heq | hgt
  · have hez : -126 < expo z := by
      have : -126 ≤ expo x := le_max_right _ _
      omega
    calc roundQ x ≤ (2 : ℚ) ^ (expo x + 1) := roundQ_le_zpow hx
      _ ≤ (2 : ℚ) ^ expo z := zpow_le_zpow_right₀ (by norm_num) (by omega)
      _ ≤ roundQ z := zpow_le_roundQ hz hez
  · have hu : ulp x = ulp z := by unfold ulp; rw [heq]
    have huz := ulp_pos z
    have h2 : x / ulp x ≤ ((rne (z / ulp z) : ℤ) : ℚ) := by
      rw [hu, div_le_iff₀ huz]
      exact h
    have h3 := rne_le_of_le_intCast h2
    have h4 : ((rne (x / ulp x) : ℤ) : ℚ) ≤ ((rne (z / ulp z) : ℤ) : ℚ) := by exact_mod_cast h3
    unfold roundQ
    rw [hu] at h4 ⊢
    exact mul_le_mul_of_nonneg_right h4 (le_of_lt huz)
  · have hex : -126 < expo x := by
      have : -126 ≤ expo z := le_max_right _ _
      omega
    have h1 : (2 : ℚ) ^ expo x ≤ x := zpow_expo_le hx hex
    have h2 : roundQ z ≤ (2 : ℚ) ^ (expo z + 1) := roundQ_le_zpow hz
    have h3 : (2 : ℚ) ^ (expo z + 1) ≤ (2 : ℚ) ^ expo x :=
      zpow_le_zpow_right₀ (by norm_num) (by omega)
    have hxe : x = (2 : ℚ) ^ expo x := le_antisymm (le_trans h (le_trans h2 h3)) h1
    have hze : roundQ z = (2 : ℚ) ^ expo x :=
      le_antisymm (le_trans h2 h3) (le_trans h1 h)
    rw [hze]
    unfold roundQ
    have hu := ulp_pos x
    have hdiv : x / ulp x = ((8388608 : ℤ) : ℚ) := by
      rw [div_eq_iff (ne_of_gt hu)]
      conv_lhs => rw [hxe, zpow_expo]
      unfold ulp
      push_cast
      rfl
    rw [hdiv, rne_intCast, zpow_expo]
    unfold ulp
    push_cast
    rfl


theorem rne_eq_of_lt {x : ℚ} {n : ℤ} (h1 : (n : ℚ) - 1 / 2 < x) (h2 : x < (n : ℚ) + 1 / 2) :
    rne x = n := by
  rcases le_or_lt (n : ℚ) x with h | h
  · have hf : ⌊x⌋ = n := by
      rw [Int.floor_eq_iff]
      constructor
      · exact h
      · linarith
    unfold rne
    rw [hf]
    have : x - (n : ℚ) < 1 / 2 := by linarith
    simp only [this, if_true]
  · have hf : ⌊x⌋ = n - 1 := by
      rw [Int.floor_eq_iff]
      push_cast
      constructor
      · linarith
      · linarith
    unfold rne
    rw [hf]
    push_cast
    have h3 : ¬ (x - ((n : ℚ) - 1) < 1 / 2) := by linarith
    have h4 : 1 / 2 < x - ((n : ℚ) - 1) := by linarith
    simp only [h3, h4, if_false, if_true]
    omega

theorem expo_eq {x : ℚ} {e : ℤ} (hx : 0 < x) (he : -126 ≤ e) (h1 : (2 : ℚ) ^ e ≤ x)
    (h2 : x < (2 : ℚ) ^ (e + 1)) : expo x = e := by
  have hlog : Int.log 2 x = e := by
    apply le_antisymm
    · have : Int.log 2 x < e + 1 := by
        rw [← Int.lt_zpow_iff_log_lt (by norm_num) hx]
        simpa using h2
      omega
    · rw [← Int.zpow_le_iff_le_log (by norm_num) hx]
      simpa using h1
  unfold expo
  rw [abs_of_pos hx, hlog]
  exact max_eq_left he

/-- Rounding of a positive rational whose binade and nearest significand are given. -/
theorem round32_eq {x : ℚ} (e m : ℤ) (hx : 0 < x) (he : -126 ≤ e) (h1 : (2 : ℚ) ^ e ≤ x)
    (h2 : x < (2 : ℚ) ^ (e + 1)) (hm1 : (m : ℚ) - 1 / 2 < x / (2 : ℚ) ^ (e - 23))
    (hm2 : x / (2 : ℚ) ^ (e - 23) < (m : ℚ) + 1 / 2)
    (hlo : -(2 : ℚ) ^ 128 < (m : ℚ) * (2 : ℚ) ^ (e - 23))
    (hhi : (m : ℚ) * (2 : ℚ) ^ (e - 23) < (2 : ℚ) ^ 128) :
    round32 x = F32.fin ((m : ℚ) * (2 : ℚ) ^ (e - 23)) := by
  have hr : roundQ x = (m : ℚ) * (2 : ℚ) ^ (e - 23) := by
    unfold roundQ ulp
    rw [expo_eq hx he h1 h2, rne_eq_of_lt hm1 hm2]
  unfold round32
  rw [hr]
  simp only [not_le.2 hhi, not_le.2 hlo, if_false]

theorem roundQ_zero : roundQ 0 = 0 := by
  simp [roundQ, rne]

theorem round32_zero : round32 0 = F32.fin 0 := by
  unfold round32
  rw [roundQ_zero]
  norm_num

theorem round32_one : round32 1 = F32.fin 1 := by
  have h := round32_eq (x := 1) 0 8388608 (by norm_num) (by norm_num) (by norm_num)
    (by norm_num) (by norm_num) (by norm_num) (by norm_num) (by norm_num)
  rw [h]
  norm_num

theorem round32_three_quarters : round32 (3 / 4) = F32.fin (3 / 4) := by
  have h := round32_eq (x := 3 / 4) (-1) 12582912 (by norm_num) (by norm_num) (by norm_num)
    (by norm_num) (by norm_num) (by norm_num) (by norm_num) (by norm_num)
  rw [h]
  norm_num

/-! ## The invariant of the queue -/

theorem lit32_zero : (FloatOps.lit 0 : F32) = F32.fin 0 := round32_zero

theorem lit32_one : (FloatOps.lit 1 : F32) = F32.fin 1 := round32_one

theorem lit32_three_quarters : (FloatOps.lit (3 / 4) : F32) = F32.fin (3 / 4) :=
  round32_three_quarters

theorem GoodAlpha_one : GoodAlpha (FloatOps.lit 1) := by
  refine ⟨1, lit32_one, by norm_num, le_refl _, ?_⟩
  refine ⟨1, ?_⟩
  have h := round32_one
  unfold round32 at h
  split_ifs at h
  exact F32.fin.inj h

theorem nonneg_cases (dt : F32) (h : FloatOps.le (FloatOps.lit 0) dt = true) :
    dt = F32.pinf ∨ ∃ d, dt = F32.fin d ∧ 0 ≤ d := by
  rw [lit32_zero] at h
  cases dt with
  | nan => simp [FloatOps.le, F32.le] at h
  | ninf => simp [FloatOps.le, F32.le] at h
  | pinf => exact Or.inl rfl
  | fin d => exact Or.inr ⟨d, rfl, by simpa [FloatOps.le, F32.le] using h⟩

theorem mul_fade_nonneg (dt : F32) (h : FloatOps.le (FloatOps.lit 0) dt = true) :
    F32.mul (F32.fin (3 / 4)) dt = F32.pinf ∨
      ∃ p, F32.mul (F32.fin (3 / 4)) dt = F32.fin p ∧ 0 ≤ p := by
  rcases nonneg_cases dt h with hd | ⟨d, hd, hd0⟩
  · left
    subst hd
    simp [F32.mul, F32.mulInf]
  · subst hd
    have hq : 0 ≤ roundQ (3 / 4 * d) := roundQ_nonneg (by positivity)
    simp only [F32.mul, round32]
    split_ifs with h1 h2
    · exact Or.inl rfl
    · exfalso
      have : (0 : ℚ) < (2 : ℚ) ^ 128 := by positivity
      linarith
    · exact Or.inr ⟨_, rfl, hq⟩

theorem sub_good (a : ℚ) (ha0 : 0 < a) (ha1 : a ≤ 1) (hrep : Rep a) (p : F32)
    (hp : p = F32.pinf ∨ ∃ r, p = F32.fin r ∧ 0 ≤ r) :
    F32.sub (F32.fin a) p = F32.ninf ∨
      ∃ r, F32.sub (F32.fin a) p = F32.fin r ∧ r ≤ a ∧ Rep r := by
  rcases hp with hp | ⟨r, hp, hr⟩
  · left
    subst hp
    rfl
  · subst hp
    obtain ⟨z, hz⟩ := hrep
    have hle : roundQ (a + -r) ≤ a := by
      have h1 : a + -r ≤ roundQ z := by rw [hz]; linarith
      have h2 := roundQ_le_of_le (by rw [hz]; exact ha0) h1
      rwa [hz] at h2
    simp only [F32.sub, F32.neg, F32.add, round32]
    split_ifs with h1 h2
    · exfalso
      have : (1 : ℚ) < (2 : ℚ) ^ 128 := by norm_num
      linarith
    · exact Or.inl rfl
    · exact Or.inr ⟨_, rfl, hle, ⟨_, rfl⟩⟩

theorem GoodAlpha_cmp (x : F32) (h : GoodAlpha x) :
    FloatOps.gt x (FloatOps.lit 0) = true ∧ FloatOps.le x (FloatOps.lit 1) = true ∧
      FloatOps.le x (FloatOps.lit 0) = false ∧ FloatOps.le x x = true := by
  obtain ⟨a, rfl, h0, h1, _⟩ := h
  rw [lit32_zero, lit32_one]
  simp [FloatOps.gt, FloatOps.le, F32.lt, F32.le, h0, h1]

/-- One fading step on a good opacity with a delta time that is not negative. -/
theorem fade_step (x dt : F32) (hx : GoodAlpha x)
    (hdt : FloatOps.le (FloatOps.lit 0) dt = true) :
    FloatOps.le (FloatOps.sub x (FloatOps.mul (FloatOps.lit (3 / 4)) dt)) x = true ∧
      (FloatOps.le (FloatOps.sub x (FloatOps.mul (FloatOps.lit (3 / 4)) dt)) (FloatOps.lit 0)
        = !FloatOps.gt (FloatOps.sub x (FloatOps.mul (FloatOps.lit (3 / 4)) dt))
            (FloatOps.lit 0)) ∧
      (FloatOps.le (FloatOps.sub x (FloatOps.mul (FloatOps.lit (3 / 4)) dt)) (FloatOps.lit 0)
          = false →
        GoodAlpha (FloatOps.sub x (FloatOps.mul (FloatOps.lit (3 / 4)) dt))) := by
  obtain ⟨a, rfl, h0, h1, hrep⟩ := hx
  rw [lit32_zero, lit32_three_quarters]
  have hm := mul_fade_nonneg dt hdt
  have hs := sub_good a h0 h1 hrep _ hm
  simp only [FloatOps.le, FloatOps.sub, FloatOps.mul, FloatOps.gt]
  rcases hs with hs | ⟨r, hs, hra, hrr⟩
  · rw [hs]
    simp [F32.le, F32.lt]
  · rw [hs]
    simp only [F32.le, F32.lt, decide_eq_true_eq, hra, true_and, decide_eq_false_iff_not, not_le]
    constructor
    · by_cases hr0 : r ≤ 0
      · simp [hr0, not_lt.2 hr0]
      · simp [hr0, not_le.1 hr0]
    · intro hr0
      exact ⟨r, rfl, hr0, le_trans hra h1, hrr⟩

theorem QueueInv_Show (message : String) (level : ToastLevel) (now : F32)
    (q : List (Toast F32)) (h : QueueInv q) : QueueInv (Show message level now q) := by
  intro t ht
  simp only [Show, List.mem_append, List.mem_singleton] at ht
  rcases ht with ht | ht
  · exact h t ht
  · subst ht
    exact ⟨GoodAlpha_one, rfl⟩

theorem ageNotice_bounds (fr : Frame F32)
    (hdt : FloatOps.le (FloatOps.lit 0) fr.deltaTime = true) (t : Toast F32)
    (h : GoodAlpha t.alpha ∧ t.fadeSpeed = FloatOps.lit (3 / 4)) :
    FloatOps.le (ageNotice fr t).alpha t.alpha = true ∧
      (t.isFading = true → (ageNotice fr t).isFading = true) ∧
      (ageNotice fr t).fadeSpeed = FloatOps.lit (3 / 4) ∧
      (agedOut (ageNotice fr t) = !FloatOps.gt (ageNotice fr t).alpha (FloatOps.lit 0)) ∧
      (agedOut (ageNotice fr t) = false → GoodAlpha (ageNotice fr t).alpha) := by
  obtain ⟨hg, hfs⟩ := h
  have hstep := fade_step t.alpha fr.deltaTime hg hdt
  have hcmp := GoodAlpha_cmp t.alpha hg
  unfold agedOut ageNotice
  simp only [hfs]
  cases hb : (t.isFading || FloatOps.gt (FloatOps.sub fr.time t.startTime) t.displayTime)
  · have hf : t.isFading = false := by
      cases hfd : t.isFading
      · rfl
      · rw [hfd] at hb; simp at hb
    simp [hf, hcmp.1, hcmp.2.2.2, hg]
  · simp only [if_true, Bool.true_and, true_and]
    exact ⟨hstep.1, fun _ => trivial, hstep.2.1, hstep.2.2⟩

theorem RenderAll_positive (fr : Frame F32)
    (hdt : FloatOps.le (FloatOps.lit 0) fr.deltaTime = true) (q : List (Toast F32))
    (h : QueueInv q) :
    (RenderAll fr q).1
      = (q.map (ageNotice fr)).filter (fun t => FloatOps.gt t.alpha (FloatOps.lit 0)) := by
  rw [RenderAll_fst, filterMap_keepToast]
  unfold agedQueue
  rw [List.filter_map, List.filter_map]
  congr 1
  apply List.filter_congr
  intro t ht
  simp only [Function.comp]
  rw [(ageNotice_bounds fr hdt t (h t ht)).2.2.2.1]
  simp

theorem QueueInv_RenderAll (fr : Frame F32)
    (hdt : FloatOps.le (FloatOps.lit 0) fr.deltaTime = true) (q : List (Toast F32))
    (h : QueueInv q) : QueueInv (RenderAll fr q).1 := by
  rw [RenderAll_fst, filterMap_keepToast]
  intro t ht
  simp only [agedQueue, List.mem_filter, List.mem_map, Bool.not_eq_true'] at ht
  obtain ⟨⟨x, hx, rfl⟩, hkeep⟩ := ht
  have hb := ageNotice_bounds fr hdt x (h x hx)
  exact ⟨hb.2.2.2.2 hkeep, hb.2.2.1⟩

theorem QueueInv_runOps (ops : List (QueueOp F32))
    (hdt : ∀ fr, QueueOp.renderOp fr ∈ ops →
      FloatOps.le (FloatOps.lit 0) fr.deltaTime = true)
    (q : List (Toast F32)) (h : QueueInv q) : QueueInv (runOps ops q) := by
  induction ops generalizing q with
  | nil => exact h
  | cons op rest ih =>
    unfold runOps
    simp only [List.foldl_cons]
    apply ih (fun fr hfr => hdt fr (List.mem_cons_of_mem _ hfr))
    cases op with
    | showOp message level now => exact QueueInv_Show message level now q h
    | renderOp fr => exact QueueInv_RenderAll fr (hdt fr (List.mem_cons_self _ _)) q h

theorem round32_three : round32 3 = F32.fin 3 := by
  have h := round32_eq (x := 3) 1 12582912 (by norm_num) (by norm_num) (by norm_num)
    (by norm_num) (by norm_num) (by norm_num) (by norm_num) (by norm_num)
  rw [h]
  norm_num

theorem round32_four : round32 4 = F32.fin 4 := by
  have h := round32_eq (x := 4) 2 8388608 (by norm_num) (by norm_num) (by norm_num)
    (by norm_num) (by norm_num) (by norm_num) (by norm_num) (by norm_num)
  rw [h]
  norm_num

/-- The product `0.75f * 0.1f` in binary32. -/
theorem round32_fade_tenth :
    round32 (3 / 4 * (13421773 / 134217728)) = F32.fin (5033165 / 67108864) := by
  have h := round32_eq (x := 3 / 4 * (13421773 / 134217728)) (-4) 10066330 (by norm_num)
    (by norm_num) (by norm_num) (by norm_num) (by norm_num) (by norm_num) (by norm_num)
    (by norm_num)
  rw [h]
  norm_num

/-- The difference `1.0f - 0.75f * 0.1f` in binary32. -/
theorem round32_one_sub_fade_tenth :
    round32 (1 + -(5033165 / 67108864)) = F32.fin (15518925 / 16777216) := by
  have h := round32_eq (x := 1 + -(5033165 / 67108864)) (-1) 15518925 (by norm_num)
    (by norm_num) (by norm_num) (by norm_num) (by norm_num) (by norm_num) (by norm_num)
    (by norm_num)
  rw [h]
  norm_num

/-- A toast posted at time 0 and aged by a frame of time 4 and delta time `0.1f`: it starts
to fade and its opacity becomes `15518925 / 16777216`. -/
theorem runOps_fade_tenth :
    runOps [QueueOp.showOp "x" ToastLevel.Info (F32.fin 0),
        QueueOp.renderOp (frame32 (F32.fin 4) tenth32)] []
      = [{ message := "x", level := ToastLevel.Info, alpha := F32.fin (15518925 / 16777216),
           fadeSpeed := F32.fin (3 / 4), displayTime := F32.fin 3, startTime := F32.fin 0,
           isFading := true, isVisible := true }] := by
  have h0 : round32 (4 + -0) = F32.fin 4 := by
    rw [show (4 : ℚ) + -0 = 4 by norm_num]; exact round32_four
  simp only [runOps, List.foldl_cons, List.foldl_nil, applyOp, RenderAll_fst, Show,
    List.nil_append, List.filterMap_cons, List.filterMap_nil, keepToast, agedOut, ageNotice,
    frame32, tenth32, FloatOps.lit, FloatOps.gt, FloatOps.sub, FloatOps.mul, FloatOps.le,
    round32_one, round32_three, round32_three_quarters, round32_zero, F32.sub, F32.neg,
    F32.add, F32.mul, F32.lt, F32.le, h0, round32_fade_tenth, round32_one_sub_fade_tenth]
  norm_num

/-- C4: in the binary32 arithmetic of the code, after any sequence of `Show` and `RenderAll`
calls with `deltaTime >= 0` from the empty queue, every stored toast has a finite opacity in
`(0, 1]`; and in a further pass with `deltaTime >= 0` the stored queue is the aged queue
without the toasts whose opacity is not above 0, ageing never raises an opacity and never
clears `isFading`, and the toasts drawn are exactly the stored ones, all with an opacity
above 0. -/
theorem C4_queue_invariant (ops : List (QueueOp F32))
    (hdt : ∀ fr, QueueOp.renderOp fr ∈ ops →
      FloatOps.le (FloatOps.lit 0) fr.deltaTime = true) :
    (∀ t ∈ runOps ops [],
      (FloatOps.gt t.alpha (FloatOps.lit 0) = true ∧
        FloatOps.le t.alpha (FloatOps.lit 1) = true) ∧
      ∃ a : ℚ, t.alpha = F32.fin a ∧ 0 < a ∧ a ≤ 1) ∧
    (∀ fr : Frame F32, FloatOps.le (FloatOps.lit 0) fr.deltaTime = true →
      (RenderAll fr (runOps ops [])).1
          = ((runOps ops []).map (ageNotice fr)).filter
              (fun t => FloatOps.gt t.alpha (FloatOps.lit 0)) ∧
        (∀ t ∈ runOps ops [],
          FloatOps.le (ageNotice fr t).alpha t.alpha = true ∧
            (t.isFading = true → (ageNotice fr t).isFading = true)) ∧
        (RenderAll fr (runOps ops [])).2.map drawKey
          = (RenderAll fr (runOps ops [])).1.reverse.map toastKey ∧
        (∀ d ∈ (RenderAll fr (runOps ops [])).2,
          FloatOps.gt d.alpha (FloatOps.lit 0) = true)) := by
  have hinv : QueueInv (runOps ops []) :=
    QueueInv_runOps ops hdt [] (by intro t ht; cases ht)
  constructor
  · intro t ht
    have hg := (hinv t ht).1
    have hc := GoodAlpha_cmp t.alpha hg
    obtain ⟨a, ha, h0, h1, _⟩ := hg
    exact ⟨⟨hc.1, hc.2.1⟩, a, ha, h0, h1⟩
  · intro fr hfr
    refine ⟨RenderAll_positive fr hfr _ hinv, ?_, RenderAll_snd fr _, ?_⟩
    · intro t ht
      have hb := ageNotice_bounds fr hfr t (hinv t ht)
      exact ⟨hb.1, hb.2.1⟩
    · intro d hd
      have hkey : drawKey d ∈ (RenderAll fr (runOps ops [])).2.map drawKey :=
        List.mem_map_of_mem _ hd
      rw [RenderAll_snd] at hkey
      simp only [List.mem_map, List.mem_reverse] at hkey
      obtain ⟨x, hx, hxd⟩ := hkey
      have hx0 := (GoodAlpha_cmp x.alpha (QueueInv_RenderAll fr hfr _ hinv x hx).1).1
      have : x.alpha = d.alpha := by
        simp only [toastKey, drawKey, Prod.mk.injEq] at hxd
        exact hxd.2.2
      rw [← this]
      exact hx0

/-- A post at time 0 followed by a frame of time 4 and delta time `0.1f`, in which the toast
starts to fade: its opacity is in `(0, 1]`, and a further frame of delta time 2 stores the
aged queue without the toasts whose opacity is not above 0. -/
theorem C4_queue_invariant_witness :
    (runOps [QueueOp.showOp "x" ToastLevel.Info (F32.fin 0),
        QueueOp.renderOp (frame32 (F32.fin 4) tenth32)] []).all
      (fun t => FloatOps.gt t.alpha (FloatOps.lit 0) && FloatOps.le t.alpha (FloatOps.lit 1))
      = true ∧
    (RenderAll (frame32 (F32.fin 6) (F32.fin 2))
        (runOps [QueueOp.showOp "x" ToastLevel.Info (F32.fin 0),
          QueueOp.renderOp (frame32 (F32.fin 4) tenth32)] [])).1
      = ((runOps [QueueOp.showOp "x" ToastLevel.Info (F32.fin 0),
            QueueOp.renderOp (frame32 (F32.fin 4) tenth32)] []).map
          (ageNotice (frame32 (F32.fin 6) (F32.fin 2)))).filter
          (fun t => FloatOps.gt t.alpha (FloatOps.lit 0)) := by
  have hC := C4_queue_invariant
    [QueueOp.showOp "x" ToastLevel.Info (F32.fin 0),
      QueueOp.renderOp (frame32 (F32.fin 4) tenth32)]
    (by
      intro fr h
      simp only [List.mem_cons, List.mem_singleton, QueueOp.renderOp.injEq,
        List.mem_nil_iff, or_false, false_or, reduceCtorEq] at h
      subst h
      rw [lit32_zero]
      norm_num [frame32, tenth32, FloatOps.le, F32.le])
  refine ⟨List.all_eq_true.2 (fun t ht => ?_), ?_⟩
  · have h := (hC.1 t ht).1
    simp [h.1, h.2]
  · exact (hC.2 (frame32 (F32.fin 6) (F32.fin 2))
      (by rw [lit32_zero]; norm_num [frame32, FloatOps.le, F32.le])).1

end ImDL
